import Mathlib

/-!
DNS resolver (`DNS_resolver/sequential/go/lookup.go`).

A shallow embedding of the producer/consumer program in `lookup.go`.

The program is a set of goroutines sharing four globals (`myQ`, `myQLock`,
`outputFileLock`, `doneRequesting`).  It is embedded as a transition system:

* every goroutine (`main`, one `request` per input file, the `resolve` workers) has a
  program counter naming the source line it is about to execute;
* one transition is one atomic step of one goroutine.  A section of code between
  `myQLock.Lock()` and `myQLock.Unlock()` is one step, the section under
  `outputFileLock` is one step, and every read or write of `doneRequesting` is one step;
* a schedule (a list of goroutine names) picks who moves next, so that every
  interleaving of the atomic steps is a run of the model.

Everything the program takes from outside is a parameter: what `os.Open` and the
scanner deliver for an input file (`InputFile`), what `net.LookupHost` returns
(`Config.LookupHost`), and what becomes of each attempt to append to the output file
(`Config.sink`).  The output file is the list of strings that reached it; it starts empty
(`os.Remove(outputFile)`).

A run-time panic in a goroutine runs that goroutine's deferred `Done()`, ends the
goroutine and marks the state `panicked`: the Go runtime is then about to end the
process, and until it does the other goroutines keep running.

The diagnostics printed with `fmt.Printf` are not part of the state; instead every step
records one `Event` in `State.trace`, a history variable that no step ever reads.
-/

namespace Lookup

/-! ## The environment -/

/-- What the operating system delivers for one command-line input file: whether
`os.Open` succeeds, the tokens for which `scanner.Scan()` returns true (in order), and
whether `scanner.Err()` is non-nil once `Scan` has returned false. -/
structure InputFile where
  name : String
  opens : Bool
  lines : List String
  scanErr : Bool
deriving DecidableEq, Repr

/-- The pair `(ip, err)` returned by `net.LookupHost`; `err = true` stands for `err != nil`. -/
structure HostResult where
  ip : List String
  err : Bool
deriving DecidableEq, Repr

/-- What becomes of one pass through lines 114-121 of `resolve`, in which every error is
discarded. -/
inductive SinkOutcome where
  /-- `os.OpenFile` and `Flush` succeed: the whole line is appended to the file. -/
  | written
  /-- `os.OpenFile` returns an error: `file` is nil, `Flush` and `Close` fail on it, and
  nothing is appended. -/
  | openFailed
  /-- `os.OpenFile` succeeds and `Flush` fails after the file has taken the first `n`
  characters of the line. -/
  | flushFailed (n : Nat)
deriving DecidableEq, Repr

/-- The two package-level tunables of `lookup.go` (Go `int`s, both `1` in the source), the
input files named on the command line (`os.Args[1 : len(os.Args)-1]`), what
`net.LookupHost` returns for each hostname, and what becomes of the `k`-th attempt to
append to the output file (counted from 0 over all workers). -/
structure Config where
  MAX_RESOLVING_GOROUTINES : Int
  QUEUE_BOUND : Int
  inputFiles : List InputFile
  LookupHost : String → HostResult
  sink : Nat → SinkOutcome

/-! ## The queue (`github.com/gammazero/deque`)

Only `Len`, `PushBack` and `PopFront` are used on the queue (`Back` only inside a
`Printf`).  The elements are the strings pushed by `request`. -/

/-- The deque `myQ`, front first. -/
abbrev Deque := List String

/-- `myQ.Len()`. -/
def Deque.Len (q : Deque) : Int := (q.length : Int)

/-- `myQ.PushBack(x)`. -/
def Deque.PushBack (q : Deque) (x : String) : Deque := q ++ [x]

/-- `myQ.PopFront()`: the front element and the rest; `none` is the library's panic on an
empty deque. -/
def Deque.PopFront : Deque → Option (String × Deque)
  | [] => none
  | x :: q => some (x, q)

/-- `isQueueFull` (lines 24-30). -/
def isQueueFull (QUEUE_BOUND : Int) (myQ : Deque) : Bool :=
  if Deque.Len myQ < QUEUE_BOUND then false else true

/-- `isQueueEmpty` (lines 32-38). -/
def isQueueEmpty (myQ : Deque) : Bool :=
  if Deque.Len myQ = 0 then true else false

/-! ## Goroutines -/

/-- Names of the goroutines: `main`, the `i`-th `request` started, the `j`-th `resolve`
started (both counted from 0). -/
inductive Actor where
  | main
  | request (i : Nat)
  | resolve (j : Nat)
deriving DecidableEq, Repr

/-- Program counter of a `request` goroutine (lines 42-81). -/
inductive ReqPc where
  /-- About to run `os.Open(inputFile)` (line 48). -/
  | opening
  /-- About to run `scanner.Scan()` (line 57); `rest` is what the scanner has left. -/
  | scanning (rest : List String)
  /-- About to run the locked attempt (lines 61-70) for `scanner.Text() = h`. -/
  | enqueuing (h : String) (rest : List String)
  /-- About to run `time.Sleep(50 * time.Microsecond)` (line 69). -/
  | backoff (h : String) (rest : List String)
  /-- Past the `if`/`else` (line 80), about to run the deferred `Done()` (line 45). -/
  | returning
  /-- The goroutine has ended. -/
  | terminated
deriving DecidableEq, Repr

/-- A `request` goroutine: its argument `inputFile` and its program counter. -/
structure Requester where
  inputFile : InputFile
  pc : ReqPc
deriving DecidableEq, Repr

/-- Program counter of a `resolve` goroutine (lines 83-127). -/
inductive ResPc where
  /-- Top of the loop: about to run the locked test-and-pop (lines 89-92, 97-98). -/
  | polling
  /-- The queue was seen empty and the lock released; about to read `doneRequesting`
  (line 93). -/
  | checkDone
  /-- Holds `hostname`, about to run `net.LookupHost` (lines 100-105). -/
  | lookingUp (hostname : String)
  /-- Holds `hostname` and `firstIp`, about to write the line (lines 107-123). -/
  | writing (hostname : String) (firstIp : String)
  /-- Left the loop by `break`, about to run the deferred `Done()` (line 86). -/
  | returning
  /-- The goroutine has ended. -/
  | terminated
deriving DecidableEq, Repr

/-- Program counter of `main` (lines 129-161). -/
inductive MainPc where
  /-- In the loop of lines 141-146; `rest` are the input files still to be ranged over. -/
  | spawnRequest (rest : List InputFile)
  /-- In the loop of lines 149-153 with loop variable `i`. -/
  | spawnResolve (i : Int)
  /-- At `requestingGoroutineGroup.Wait()` (line 155). -/
  | waitRequest
  /-- About to run `doneRequesting = true` (line 156). -/
  | setDone
  /-- At `resolvingGoroutineGroup.Wait()` (line 157). -/
  | waitResolve
  /-- Past line 157: `main` has returned. -/
  | finished
deriving DecidableEq, Repr

/-- What a step did; appended to `State.trace`. -/
inductive Event where
  /-- A `go` statement of `main` started goroutine `a`. -/
  | started (a : Actor)
  /-- `main` ran a loop test that failed, or a `Wait()` returned. -/
  | mainAdvanced
  /-- `main` ran `doneRequesting = true`. -/
  | flagSet
  /-- `os.Open` succeeded in producer `i`. -/
  | opened (i : Nat)
  /-- `os.Open` failed in producer `i`. -/
  | openFailed (i : Nat)
  /-- `scanner.Scan()` returned true in producer `i` with text `h`. -/
  | fetched (i : Nat) (h : String)
  /-- `scanner.Scan()` returned false in producer `i`; `err` is `scanner.Err() != nil`. -/
  | scanEnded (i : Nat) (err : Bool)
  /-- Producer `i` ran `myQ.PushBack(h)` under the lock. -/
  | enqueued (i : Nat) (h : String)
  /-- Producer `i` found the queue full under the lock. -/
  | queueFull (i : Nat) (h : String)
  /-- Goroutine `a` ran `time.Sleep`. -/
  | slept (a : Actor)
  /-- Worker `j` found the queue empty under the lock. -/
  | queueEmpty (j : Nat)
  /-- Worker `j` ran `myQ.PopFront()` under the lock and got `h`. -/
  | dequeued (j : Nat) (h : String)
  /-- Worker `j` read `doneRequesting` and saw `b`. -/
  | readDone (j : Nat) (b : Bool)
  /-- Worker `j` looked `h` up and set `firstIp`. -/
  | lookedUp (j : Nat) (h : String) (firstIp : String)
  /-- Worker `j` wrote `line` for hostname `h` to the output file. -/
  | wrote (j : Nat) (h : String) (line : String)
  /-- Worker `j` could not open the output file; `line` for hostname `h` is dropped. -/
  | writeLost (j : Nat) (h : String) (line : String)
  /-- Worker `j` wrote only the first `n` characters of `line` for hostname `h`. -/
  | writeCut (j : Nat) (h : String) (line : String) (n : Nat)
  /-- Goroutine `a` ran its deferred `Done()` and ended. -/
  | returned (a : Actor)
  /-- Goroutine `a` panicked; its deferred `Done()` ran and it ended. -/
  | crashed (a : Actor)
deriving DecidableEq, Repr

/-- The globals of `lookup.go`, the two wait groups of `main`, the goroutines, the output
file and the history. -/
structure State where
  myQ : Deque
  doneRequesting : Bool
  /-- Counter of `requestingGoroutineGroup`. -/
  requestingGoroutineGroup : Int
  /-- Counter of `resolvingGoroutineGroup`. -/
  resolvingGoroutineGroup : Int
  main : MainPc
  requesters : List Requester
  resolvers : List ResPc
  /-- The strings that have reached the output file so far, one per successful append
  under `outputFileLock`. -/
  output : List String
  /-- How often `os.OpenFile` has been called on the output file so far. -/
  sinkCalls : Nat
  /-- A goroutine has panicked: the Go runtime is about to end the process. -/
  panicked : Bool
  /-- History variable: the events of the steps taken so far, oldest first. -/
  trace : List Event
deriving DecidableEq, Repr

/-- State at entry of `main`'s first loop: globals as initialised in lines 18-21, no
goroutine started, the output file removed (line 138). -/
def init (cfg : Config) : State where
  myQ := []
  doneRequesting := false
  requestingGoroutineGroup := 0
  resolvingGoroutineGroup := 0
  main := .spawnRequest cfg.inputFiles
  requesters := []
  resolvers := []
  output := []
  sinkCalls := 0
  panicked := false
  trace := []

/-- Record an event. -/
def State.log (s : State) (e : Event) : State :=
  { s with trace := s.trace ++ [e] }

/-- Move producer `i` to program counter `pc`. -/
def State.setReq (s : State) (i : Nat) (r : Requester) (pc : ReqPc) : State :=
  { s with requesters := s.requesters.set i { r with pc := pc } }

/-- Move worker `j` to program counter `pc`. -/
def State.setRes (s : State) (j : Nat) (pc : ResPc) : State :=
  { s with resolvers := s.resolvers.set j pc }

/-- One step of `main` (lines 141-157).  `Add(1)` and the `go` statement after it are one
step; a `Wait()` can only be passed when its counter is zero. -/
def stepMain (cfg : Config) (s : State) : Option State :=
  match s.main with
  | .spawnRequest (inputFile :: rest) =>
    some (({ s with
      requestingGoroutineGroup := s.requestingGoroutineGroup + 1
      requesters := s.requesters ++ [{ inputFile := inputFile, pc := .opening }]
      main := .spawnRequest rest } : State).log (.started (.request s.requesters.length)))
  | .spawnRequest [] =>
    some (({ s with main := .spawnResolve 0 } : State).log .mainAdvanced)
  | .spawnResolve i =>
    if i < cfg.MAX_RESOLVING_GOROUTINES then
      some (({ s with
        resolvingGoroutineGroup := s.resolvingGoroutineGroup + 1
        resolvers := s.resolvers ++ [.polling]
        main := .spawnResolve (i + 1) } : State).log (.started (.resolve s.resolvers.length)))
    else
      some (({ s with main := .waitRequest } : State).log .mainAdvanced)
  | .waitRequest =>
    if s.requestingGoroutineGroup = 0 then
      some (({ s with main := .setDone } : State).log .mainAdvanced)
    else none
  | .setDone =>
    some (({ s with doneRequesting := true, main := .waitResolve } : State).log .flagSet)
  | .waitResolve =>
    if s.resolvingGoroutineGroup = 0 then
      some (({ s with main := .finished } : State).log .mainAdvanced)
    else none
  | .finished => none

/-- One step of the `i`-th `request` goroutine (lines 42-81).  A deferred `Done()` that
takes the counter below zero lowers it and then panics. -/
def stepRequest (cfg : Config) (s : State) (i : Nat) : Option State :=
  match s.requesters[i]? with
  | none => none
  | some r =>
    match r.pc with
    | .opening =>
      if r.inputFile.opens then
        some ((s.setReq i r (.scanning r.inputFile.lines)).log (.opened i))
      else
        some ((s.setReq i r .returning).log (.openFailed i))
    | .scanning (h :: rest) =>
      some ((s.setReq i r (.enqueuing h rest)).log (.fetched i h))
    | .scanning [] =>
      some ((s.setReq i r .returning).log (.scanEnded i r.inputFile.scanErr))
    | .enqueuing h rest =>
      if !isQueueFull cfg.QUEUE_BOUND s.myQ then
        some ((({ s with myQ := Deque.PushBack s.myQ h } : State).setReq i r
          (.scanning rest)).log (.enqueued i h))
      else
        some ((s.setReq i r (.backoff h rest)).log (.queueFull i h))
    | .backoff h rest =>
      some ((s.setReq i r (.enqueuing h rest)).log (.slept (.request i)))
    | .returning =>
      if s.requestingGoroutineGroup - 1 < 0 then
        some ((({ s with
          requestingGoroutineGroup := s.requestingGoroutineGroup - 1
          panicked := true } : State).setReq i r .terminated).log (.crashed (.request i)))
      else
        some ((({ s with requestingGoroutineGroup := s.requestingGoroutineGroup - 1 } :
          State).setReq i r .terminated).log (.returned (.request i)))
    | .terminated => none

/-- Lines 89 and 102-105 of `resolve`: `firstIp` after the lookup.  `none` is the run-time
panic of `ip[0]` on an empty slice. -/
def firstIp (res : HostResult) : Option String :=
  if res.err = false then
    match res.ip with
    | a :: _ => some a
    | [] => none
  else some ""

/-- The string passed to `datawriter.WriteString` (line 119). -/
def lineToWrite (hostname firstIp : String) : String :=
  hostname ++ "," ++ firstIp ++ "\n"

/-- The worker's deferred `Done()` (line 86) run by a panic in worker `j`: the counter of
the workers' wait group drops by one, the goroutine ends, and the state is marked
`panicked`. -/
def State.crashRes (s : State) (j : Nat) : State :=
  (({ s with
    resolvingGoroutineGroup := s.resolvingGoroutineGroup - 1
    panicked := true } : State).setRes j .terminated).log (.crashed (.resolve j))

/-- One step of the `j`-th `resolve` goroutine (lines 83-127).  The `PopFront` on an
empty queue cannot occur, the queue having been seen non-empty under the same lock.  The
write of lines 113-122 (`os.OpenFile`, `WriteString`, `Flush`, `Close` under
`outputFileLock`, every error discarded) puts into the file what `cfg.sink` says for
this call. -/
def stepResolve (cfg : Config) (s : State) (j : Nat) : Option State :=
  match s.resolvers[j]? with
  | none => none
  | some pc =>
    match pc with
    | .polling =>
      if isQueueEmpty s.myQ then
        some ((s.setRes j .checkDone).log (.queueEmpty j))
      else
        match Deque.PopFront s.myQ with
        | some (hostname, q) =>
          some ((({ s with myQ := q } : State).setRes j (.lookingUp hostname)).log
            (.dequeued j hostname))
        | none => some (s.crashRes j)
    | .checkDone =>
      if s.doneRequesting then
        some ((s.setRes j .returning).log (.readDone j true))
      else
        some ((s.setRes j .polling).log (.readDone j false))
    | .lookingUp hostname =>
      match firstIp (cfg.LookupHost hostname) with
      | some ip => some ((s.setRes j (.writing hostname ip)).log (.lookedUp j hostname ip))
      | none => some (s.crashRes j)
    | .writing hostname ip =>
      match cfg.sink s.sinkCalls with
      | .written =>
        some ((({ s with
          output := s.output ++ [lineToWrite hostname ip]
          sinkCalls := s.sinkCalls + 1 } : State).setRes j .polling).log
            (.wrote j hostname (lineToWrite hostname ip)))
      | .openFailed =>
        some ((({ s with sinkCalls := s.sinkCalls + 1 } : State).setRes j .polling).log
          (.writeLost j hostname (lineToWrite hostname ip)))
      | .flushFailed n =>
        some ((({ s with
          output := s.output ++ [(lineToWrite hostname ip).take n]
          sinkCalls := s.sinkCalls + 1 } : State).setRes j .polling).log
            (.writeCut j hostname (lineToWrite hostname ip) n))
    | .returning =>
      if s.resolvingGoroutineGroup - 1 < 0 then
        some (s.crashRes j)
      else
        some ((({ s with resolvingGoroutineGroup := s.resolvingGoroutineGroup - 1 } :
          State).setRes j .terminated).log (.returned (.resolve j)))
    | .terminated => none

/-- One atomic step of goroutine `a`; `none` when `a` cannot move (it does not exist, has
ended, or is blocked in `Wait()`). -/
def step (cfg : Config) (s : State) (a : Actor) : Option State :=
  match a with
  | .main => stepMain cfg s
  | .request i => stepRequest cfg s i
  | .resolve j => stepResolve cfg s j

/-- Run a schedule from `s`; `none` when some scheduled goroutine cannot move. -/
def run (cfg : Config) : List Actor → State → Option State
  | [], s => some s
  | a :: sched, s => (step cfg s a).bind (run cfg sched)

/-- The states the program can be in: those some schedule reaches from `init`. -/
def Reachable (cfg : Config) (s : State) : Prop :=
  ∃ sched, run cfg sched (init cfg) = some s

/-! ## Histories read off the trace -/

/-- Hostnames pushed on the queue, in the order of the pushes. -/
def enqueuedLog (tr : List Event) : List String :=
  tr.filterMap fun e => match e with
    | .enqueued _ h => some h
    | _ => none

/-- Hostnames popped from the queue, in the order of the pops. -/
def dequeuedLog (tr : List Event) : List String :=
  tr.filterMap fun e => match e with
    | .dequeued _ h => some h
    | _ => none

/-- Hostnames producer `i` has pushed on the queue, in the order of its pushes. -/
def pushedBy (i : Nat) (tr : List Event) : List String :=
  tr.filterMap fun e => match e with
    | .enqueued k h => if k = i then some h else none
    | _ => none

/-- Hostnames the producers have read from their sources (`scanner.Scan()` returned
true), in the order of the reads. -/
def fetchedLog (tr : List Event) : List String :=
  tr.filterMap fun e => match e with
    | .fetched _ h => some h
    | _ => none

/-- Hostnames of the records the workers have written to the output file, in the order of
the writes. -/
def emittedLog (tr : List Event) : List String :=
  tr.filterMap fun e => match e with
    | .wrote _ h _ => some h
    | _ => none

/-- A complete run: `main` is past its last `Wait()` and every `request` and every
`resolve` goroutine has ended. -/
def State.complete (s : State) : Prop :=
  s.main = .finished ∧ (∀ r ∈ s.requesters, r.pc = .terminated) ∧
    ∀ pc ∈ s.resolvers, pc = .terminated

/-- A `request` goroutine that has not ended. -/
def Requester.live (r : Requester) : Bool :=
  r.pc != .terminated

/-! ## Concrete configurations used to exercise the theorems -/

/-- An input file with the single line `a.com`. -/
def fileA : InputFile := { name := "A", opens := true, lines := ["a.com"], scanErr := false }

/-- An input file with two lines. -/
def fileB : InputFile :=
  { name := "B", opens := true, lines := ["x.com", "y.com"], scanErr := false }

/-- An input file that cannot be opened. -/
def fileMissing : InputFile := { name := "M", opens := false, lines := [], scanErr := false }

/-- A resolver that fails for `x.com` and answers `1.2.3.4` (first of two addresses)
for every other name. -/
def lookupDemo (h : String) : HostResult :=
  if h = "x.com" then { ip := [], err := true } else { ip := ["1.2.3.4", "5.6.7.8"], err := false }

/-- The source's settings (`MAX_RESOLVING_GOROUTINES = 1`, `QUEUE_BOUND = 1`) with the
input files `fs` and an output file that takes every line. -/
def configOf (fs : List InputFile) : Config :=
  { MAX_RESOLVING_GOROUTINES := 1, QUEUE_BOUND := 1, inputFiles := fs,
    LookupHost := lookupDemo, sink := fun _ => .written }

/-- The state after schedule `sched` (the initial state if the schedule cannot be run). -/
def stateAfter (cfg : Config) (sched : List Actor) : State :=
  (run cfg sched (init cfg)).getD (init cfg)

/-- A resolver that answers every name with no error and no address. -/
def lookupNoAddress (_ : String) : HostResult := { ip := [], err := false }

/-- The source's settings with input files `fs` and the resolver `lookupNoAddress`. -/
def configNoAddress (fs : List InputFile) : Config :=
  { MAX_RESOLVING_GOROUTINES := 1, QUEUE_BOUND := 1, inputFiles := fs,
    LookupHost := lookupNoAddress, sink := fun _ => .written }

/-- Start everything, then let producer 0 read and push its first line. -/
def schedFirstPush : List Actor :=
  [.main, .main, .main, .main, .request 0, .request 0, .request 0]

/-- The worker tests the queue before the producer has pushed, and reads `doneRequesting`
only after the producer has pushed `a.com` and ended and `main` has set the flag. -/
def schedLateRead : List Actor :=
  [.main, .main, .main, .main, .resolve 0, .request 0, .request 0, .request 0, .request 0,
    .request 0, .main, .main]

/-- The run `schedLateRead` continued to its end: the worker reads the flag and ends, and
`main` passes its second `Wait()`. -/
def schedLost : List Actor :=
  schedLateRead ++ [.resolve 0, .resolve 0, .main]

/-- Start everything, then let the worker poll the empty queue twice. -/
def schedSpin : List Actor :=
  [.main, .main, .main, .main, .resolve 0, .resolve 0, .resolve 0, .resolve 0]

/-! ## Bookkeeping of the producers' wait group -/

/-- The input files `main` has not yet ranged over in its first loop. -/
def MainPc.unspawned : MainPc → List InputFile
  | .spawnRequest rest => rest
  | _ => []

/-- Whether `main` is past `requestingGoroutineGroup.Wait()` (line 155). -/
def MainPc.pastWait : MainPc → Bool
  | .setDone => true
  | .waitResolve => true
  | .finished => true
  | _ => false

/-- Whether `main` is past `doneRequesting = true` (line 156). -/
def MainPc.pastSet : MainPc → Bool
  | .waitResolve => true
  | .finished => true
  | _ => false

/-- How `main`, the producers and the producers' wait group hang together: the counter
equals the number of producers that have not ended; the producers started so far are
those of the input files ranged over so far; once `main` is past the `Wait()`, every
producer has ended; `doneRequesting` is true exactly when `main` is past line 156. -/
def ProducersAccounted (cfg : Config) (s : State) : Prop :=
  s.requestingGoroutineGroup = (s.requesters.countP Requester.live : Nat) ∧
  s.requesters.map (fun r => r.inputFile) ++ s.main.unspawned = cfg.inputFiles ∧
  (s.main.pastWait = true → ∀ r ∈ s.requesters, r.pc = .terminated) ∧
  (s.doneRequesting = true ↔ s.main.pastSet = true)

/-! ## What a producer has pushed, against its source -/

/-- Producer `r` has pushed `pushed` so far, and this is consistent with where it stands
in its source: before the file is opened it has pushed nothing; while scanning, what it
has pushed followed by what it is still to push (the hostname it is attempting, then what
the scanner has left) is the list of lines of its file; once past the loop it has pushed
all lines of an opened file, and nothing for a file that did not open. -/
def ProducerInOrder (pushed : List String) (r : Requester) : Prop :=
  match r.pc with
  | .opening => pushed = []
  | .scanning rest => r.inputFile.opens = true ∧ pushed ++ rest = r.inputFile.lines
  | .enqueuing h rest => r.inputFile.opens = true ∧ pushed ++ h :: rest = r.inputFile.lines
  | .backoff h rest => r.inputFile.opens = true ∧ pushed ++ h :: rest = r.inputFile.lines
  | .returning => pushed = if r.inputFile.opens then r.inputFile.lines else []
  | .terminated => pushed = if r.inputFile.opens then r.inputFile.lines else []

/-- Every producer is in order, and goroutines not yet started have pushed nothing. -/
def ProducersInOrder (s : State) : Prop :=
  (∀ i r, s.requesters[i]? = some r → ProducerInOrder (pushedBy i s.trace) r) ∧
  ∀ i, s.requesters.length ≤ i → pushedBy i s.trace = []

/-- Both producers started, producer 0 has pushed `a.com`, worker 0 has popped it, and
producer 1 has read and pushed `x.com`, the first of its two lines. -/
def schedTwoProducers : List Actor :=
  [.main, .main, .main, .main, .main, .request 0, .request 0, .request 0, .resolve 0,
    .request 1, .request 1, .request 1]

/-! ## Runs in which no source can be opened -/

/-- A `resolve` goroutine that has not ended. -/
def ResPc.live (pc : ResPc) : Bool :=
  pc != .terminated

/-- The counter of the workers' wait group is the number of workers that have not ended,
and once `main` is past `resolvingGoroutineGroup.Wait()` every worker has ended. -/
def ResolversAccounted (s : State) : Prop :=
  s.resolvingGoroutineGroup = (s.resolvers.countP ResPc.live : Nat) ∧
  (s.main = .finished → ∀ pc ∈ s.resolvers, pc = .terminated)

/-- A worker that holds no hostname. -/
def ResPc.idle : ResPc → Bool
  | .lookingUp _ => false
  | .writing _ _ => false
  | _ => true

/-- Nothing has been queued or written, no worker holds a hostname, and no goroutine has
panicked. -/
def Quiet (s : State) : Prop :=
  s.myQ = [] ∧ s.output = [] ∧ emittedLog s.trace = [] ∧ s.panicked = false ∧
    ∀ pc ∈ s.resolvers, pc.idle = true

/-- Steps a producer whose file does not open takes before it has ended. -/
def ReqPc.stepsLeft : ReqPc → Nat
  | .opening => 2
  | .returning => 1
  | _ => 0

/-- Steps `main` takes before it has set `doneRequesting`, counting three for every
producer it still has to start (the `go` statement and the producer's two steps). -/
def MainPc.stepsToFlag (cfg : Config) : MainPc → Nat
  | .spawnRequest rest => 3 * rest.length + cfg.MAX_RESOLVING_GOROUTINES.toNat + 4
  | .spawnResolve i => (cfg.MAX_RESOLVING_GOROUTINES - i).toNat + 3
  | .waitRequest => 2
  | .setDone => 1
  | _ => 0

/-- Steps of `main` and of the producers before `doneRequesting` is set, when no file
can be opened. -/
def stepsToFlag (cfg : Config) (s : State) : Nat :=
  s.main.stepsToFlag cfg + (s.requesters.map (fun r => r.pc.stepsLeft)).sum

/-- Steps a worker that has seen `doneRequesting` set and finds the queue empty takes
before it has ended. -/
def ResPc.stepsLeft : ResPc → Nat
  | .polling => 3
  | .checkDone => 2
  | .returning => 1
  | _ => 0

/-- Steps of `main` and of the workers before the run is complete, once `doneRequesting`
is set and the queue stays empty. -/
def stepsToEnd (s : State) : Nat :=
  (if s.main = .finished then 0 else 1) + (s.resolvers.map ResPc.stepsLeft).sum

/-! ## What a worker has written, against what it has popped -/

/-- Whether `main` is still in one of its two loops that start goroutines. -/
def MainPc.spawning : MainPc → Bool
  | .spawnRequest _ => true
  | .spawnResolve _ => true
  | _ => false

/-- Nothing has been written, a goroutine has panicked, every worker has ended and `main`
starts no more. -/
def Silenced (s : State) : Prop :=
  s.output = [] ∧ emittedLog s.trace = [] ∧ s.panicked = true ∧
    (∀ pc ∈ s.resolvers, pc = .terminated) ∧ s.main.spawning = false

/-! ## Runs and invariants -/

/-- A property kept by every step is kept by every run. -/
theorem run_invariant {cfg : Config} {P : State → Prop}
    (hstep : ∀ s a s', P s → step cfg s a = some s' → P s') :
    ∀ (sched : List Actor) (s s' : State), P s → run cfg sched s = some s' → P s' := by
  intro sched
  induction sched with
  | nil =>
    intro s s' hP h
    simp only [run, Option.some.injEq] at h
    exact h ▸ hP
  | cons a sched ih =>
    intro s s' hP h
    simp only [run] at h
    cases hs : step cfg s a with
    | none => simp [hs] at h
    | some s1 =>
      rw [hs] at h
      exact ih s1 s' (hstep s a s1 hP hs) h

/-- A property that holds initially and is kept by every step holds in every reachable
state. -/
theorem reachable_invariant {cfg : Config} {P : State → Prop} (h0 : P (init cfg))
    (hstep : ∀ s a s', P s → step cfg s a = some s' → P s') :
    ∀ s, Reachable cfg s → P s := by
  rintro s ⟨sched, h⟩
  exact run_invariant hstep sched (init cfg) s h0 h

/-- Running two schedules one after the other. -/
theorem run_append (cfg : Config) (p q : List Actor) (s : State) :
    run cfg (p ++ q) s = (run cfg p s).bind (run cfg q) := by
  induction p generalizing s with
  | nil => simp [run]
  | cons a p ih =>
    simp only [List.cons_append, run]
    cases step cfg s a with
    | none => simp
    | some s1 => simpa using ih s1

/-- A state reached from a reachable state is reachable. -/
theorem Reachable.run {cfg : Config} {s s' : State} (hs : Reachable cfg s)
    (sched : List Actor) (h : run cfg sched s = some s') : Reachable cfg s' := by
  obtain ⟨p, hp⟩ := hs
  exact ⟨p ++ sched, by rw [run_append, hp]; simpa using h⟩

/-- `PopFront` succeeds exactly on a queue with a front element. -/
theorem popFront_eq_some {q q' : Deque} {x : String} :
    Deque.PopFront q = some (x, q') ↔ q = x :: q' := by
  cases q <;> simp [Deque.PopFront]

/-- The empty queue is empty. -/
theorem isQueueEmpty_nil : isQueueEmpty [] = true := by
  simp [isQueueEmpty, Deque.Len]

/-- A queue with a front element is not empty. -/
theorem isQueueEmpty_cons (x : String) (q : Deque) : isQueueEmpty (x :: q) = false := by
  simp only [isQueueEmpty, Deque.Len, List.length_cons]
  rw [if_neg (by omega)]

/-- What one step does to the queue and its two logs: nothing, a push at the back of a
queue that is not full, or a pop at the front. -/
theorem step_queue {cfg : Config} {s s' : State} {a : Actor} (h : step cfg s a = some s') :
    (s'.myQ = s.myQ ∧ enqueuedLog s'.trace = enqueuedLog s.trace ∧
        dequeuedLog s'.trace = dequeuedLog s.trace) ∨
    (∃ x, isQueueFull cfg.QUEUE_BOUND s.myQ = false ∧ s'.myQ = s.myQ ++ [x] ∧
        enqueuedLog s'.trace = enqueuedLog s.trace ++ [x] ∧
        dequeuedLog s'.trace = dequeuedLog s.trace) ∨
    (∃ x, s.myQ = x :: s'.myQ ∧ enqueuedLog s'.trace = enqueuedLog s.trace ∧
        dequeuedLog s'.trace = dequeuedLog s.trace ++ [x]) := by
  unfold step at h
  cases a with
  | main =>
    simp only [stepMain] at h
    split at h <;> (try split at h) <;> simp at h <;> subst h <;>
      simp [State.log, enqueuedLog, dequeuedLog]
  | request i =>
    simp only [stepRequest] at h
    split at h
    · simp at h
    · split at h <;> (try split at h) <;> simp at h <;> subst h <;>
        simp_all [State.log, State.setReq, enqueuedLog, dequeuedLog, Deque.PushBack]
  | resolve j =>
    simp only [stepResolve] at h
    split at h
    · simp at h
    · split at h <;> (try split at h) <;> (try split at h) <;> simp at h <;> subst h <;>
        simp_all [State.log, State.setRes, State.crashRes, enqueuedLog, dequeuedLog,
          popFront_eq_some]

/-- The queue always holds exactly the hostnames pushed and not yet popped, oldest first. -/
theorem queue_is_pending {cfg : Config} :
    ∀ s, Reachable cfg s → enqueuedLog s.trace = dequeuedLog s.trace ++ s.myQ := by
  apply reachable_invariant
  · simp [init, enqueuedLog, dequeuedLog]
  · intro s a s' hinv h
    rcases step_queue h with ⟨hq, he, hd⟩ | ⟨x, -, hq, he, hd⟩ | ⟨x, hq, he, hd⟩
    · rw [hq, he, hd, hinv]
    · rw [hq, he, hd, hinv, List.append_assoc]
    · rw [he, hd, hinv, hq]; simp

/-! ## C2: the bound invariant -/

/-- C2 (bound invariant): with `QUEUE_BOUND >= 1`, in every state reachable from the empty
queue by any interleaving of the goroutines' steps (among them the producers' locked
check-then-`PushBack` and the workers' locked check-then-`PopFront`),
`0 <= myQ.Len() <= QUEUE_BOUND`. -/
theorem queue_bound (cfg : Config) (hb : 1 ≤ cfg.QUEUE_BOUND) (s : State)
    (hs : Reachable cfg s) : 0 ≤ Deque.Len s.myQ ∧ Deque.Len s.myQ ≤ cfg.QUEUE_BOUND := by
  refine ⟨by simp [Deque.Len], ?_⟩
  revert s
  apply reachable_invariant
  · simp only [init, Deque.Len, List.length_nil]; omega
  · intro s a s' hinv h
    rcases step_queue h with ⟨hq, -, -⟩ | ⟨x, hfull, hq, -, -⟩ | ⟨x, hq, -, -⟩
    · rw [hq]; exact hinv
    · rw [hq]
      simp only [isQueueFull, Deque.Len] at hfull hinv ⊢
      split at hfull
      · simp only [List.length_append, List.length_singleton]; omega
      · simp at hfull
    · rw [hq] at hinv
      simp only [Deque.Len, List.length_cons] at hinv ⊢
      omega

/-- The bound invariant at a state of a run with two producers and one worker in which
the queue is full. -/
theorem queue_bound_witness :
    Deque.Len (stateAfter (configOf [fileA, fileB])
      [.main, .main, .request 0, .request 0, .request 0]).myQ = 1 ∧
    (0 ≤ Deque.Len (stateAfter (configOf [fileA, fileB])
      [.main, .main, .request 0, .request 0, .request 0]).myQ ∧
    Deque.Len (stateAfter (configOf [fileA, fileB])
      [.main, .main, .request 0, .request 0, .request 0]).myQ ≤
        (configOf [fileA, fileB]).QUEUE_BOUND) :=
  ⟨by decide, queue_bound (configOf [fileA, fileB]) (by decide) _
    ⟨[.main, .main, .request 0, .request 0, .request 0], by decide⟩⟩

/-! ## C7: FIFO -/

/-- C7 (FIFO): in every reachable state the sequence of dequeued hostnames is a prefix of
the sequence of enqueued hostnames (what remains is the queue, in order); a worker's
dequeue attempt on a non-empty queue takes the oldest item and lowers the length by one;
a dequeue attempt on an empty queue takes no item and leaves the queue unchanged. -/
theorem fifo_order (cfg : Config) (s : State) (hs : Reachable cfg s) :
    dequeuedLog s.trace <+: enqueuedLog s.trace ∧
    enqueuedLog s.trace = dequeuedLog s.trace ++ s.myQ ∧
    ∀ j, s.panicked = false → s.resolvers[j]? = some .polling →
      (∀ x q, s.myQ = x :: q → ∃ s', step cfg s (.resolve j) = some s' ∧
        s'.resolvers[j]? = some (.lookingUp x) ∧ s'.myQ = q ∧
        Deque.Len s'.myQ = Deque.Len s.myQ - 1 ∧
        dequeuedLog s'.trace = dequeuedLog s.trace ++ [x]) ∧
      (s.myQ = [] → ∃ s', step cfg s (.resolve j) = some s' ∧
        s'.resolvers[j]? = some .checkDone ∧ s'.myQ = s.myQ ∧
        dequeuedLog s'.trace = dequeuedLog s.trace) := by
  have hq := queue_is_pending s hs
  refine ⟨⟨s.myQ, hq.symm⟩, hq, ?_⟩
  intro j hp hj
  have hlt : j < s.resolvers.length := by
    rcases Nat.lt_or_ge j s.resolvers.length with h | h
    · exact h
    · rw [List.getElem?_eq_none h] at hj; simp at hj
  constructor
  · intro x q hxq
    simp [step, stepResolve, hp, hj, hxq, isQueueEmpty_cons, Deque.Len, Deque.PopFront,
      State.log, State.setRes, dequeuedLog, hlt]
  · intro hnil
    simp [step, stepResolve, hp, hj, hnil, isQueueEmpty_nil, State.log,
      State.setRes, dequeuedLog, hlt]

/-- FIFO at a state of a run in which producer 0 has pushed `a.com`, worker 0 popped it,
and producer 1 has pushed `x.com`. -/
theorem fifo_order_witness :
    dequeuedLog (stateAfter (configOf [fileA, fileB])
      [.main, .main, .main, .main, .request 0, .request 0, .request 0, .resolve 0,
        .request 1, .request 1, .request 1]).trace = ["a.com"] ∧
    enqueuedLog (stateAfter (configOf [fileA, fileB])
      [.main, .main, .main, .main, .request 0, .request 0, .request 0, .resolve 0,
        .request 1, .request 1, .request 1]).trace = ["a.com", "x.com"] ∧
    dequeuedLog (stateAfter (configOf [fileA, fileB])
      [.main, .main, .main, .main, .request 0, .request 0, .request 0, .resolve 0,
        .request 1, .request 1, .request 1]).trace <+:
    enqueuedLog (stateAfter (configOf [fileA, fileB])
      [.main, .main, .main, .main, .request 0, .request 0, .request 0, .resolve 0,
        .request 1, .request 1, .request 1]).trace :=
  ⟨by decide, by decide, (fifo_order (configOf [fileA, fileB]) _
    ⟨[.main, .main, .main, .main, .request 0, .request 0, .request 0, .resolve 0,
        .request 1, .request 1, .request 1], by decide⟩).1⟩

/-! ## C1 and C3: the late read of `doneRequesting` -/

/-- C1 at the failing input: one input file with the line `a.com`, one worker.  The run
`schedLost` is complete, the producer has read and pushed `a.com`, and no record was
written: `a.com` is still in the queue, and the hostnames emitted differ from the
hostnames read. -/
theorem hostname_lost :
    run (configOf [fileA]) schedLost (init (configOf [fileA])) ≠ none ∧
    (stateAfter (configOf [fileA]) schedLost).complete ∧
    fetchedLog (stateAfter (configOf [fileA]) schedLost).trace = ["a.com"] ∧
    emittedLog (stateAfter (configOf [fileA]) schedLost).trace = [] ∧
    (stateAfter (configOf [fileA]) schedLost).output = [] ∧
    (stateAfter (configOf [fileA]) schedLost).myQ = ["a.com"] ∧
    (emittedLog (stateAfter (configOf [fileA]) schedLost).trace : Multiset String) ≠
      (fetchedLog (stateAfter (configOf [fileA]) schedLost).trace : Multiset String) := by
  have hf : fetchedLog (stateAfter (configOf [fileA]) schedLost).trace = ["a.com"] := by
    decide
  have he : emittedLog (stateAfter (configOf [fileA]) schedLost).trace = [] := by decide
  refine ⟨by decide, ?_, hf, he, by decide, by decide, ?_⟩
  · unfold State.complete
    decide
  · rw [hf, he]
    simp

/-- C3 at the failing input: after `schedLateRead` the worker is between its emptiness
test and its read of `doneRequesting`; the flag is set and `a.com` is in the queue.  Its
next step reads the flag and leaves the loop, and its step after that ends the goroutine,
with `a.com` still in the queue. -/
theorem worker_exits_with_queued_hostname :
    run (configOf [fileA]) schedLateRead (init (configOf [fileA])) ≠ none ∧
    (stateAfter (configOf [fileA]) schedLateRead).resolvers = [.checkDone] ∧
    (stateAfter (configOf [fileA]) schedLateRead).doneRequesting = true ∧
    (stateAfter (configOf [fileA]) schedLateRead).myQ = ["a.com"] ∧
    (step (configOf [fileA]) (stateAfter (configOf [fileA]) schedLateRead) (.resolve 0)).map
      (fun s => (s.resolvers, s.myQ, s.doneRequesting)) =
        some ([.returning], ["a.com"], true) ∧
    (run (configOf [fileA]) [.resolve 0, .resolve 0]
      (stateAfter (configOf [fileA]) schedLateRead)).map
      (fun s => (s.resolvers, s.myQ, s.doneRequesting)) =
        some ([.terminated], ["a.com"], true) := by
  refine ⟨by decide, by decide, by decide, by decide, by decide, by decide⟩

/-! ## C10: the worker does not sleep -/

/-- C10 at the failing input: one worker polling an empty queue while `doneRequesting` is
false.  Its four steps are: queue seen empty, flag read false, queue seen empty, flag read
false.  Between the two dequeue attempts the worker performs no step other than the read
of the flag, and no `time.Sleep` occurs in the run. -/
theorem worker_polls_without_sleep :
    (stateAfter (configOf [fileA]) schedSpin).trace =
      [.started (.request 0), .mainAdvanced, .started (.resolve 0), .mainAdvanced,
        .queueEmpty 0, .readDone 0 false, .queueEmpty 0, .readDone 0 false] ∧
    (∀ a, Event.slept a ∉ (stateAfter (configOf [fileA]) schedSpin).trace) ∧
    run (configOf [fileA]) schedSpin (init (configOf [fileA])) ≠ none := by
  refine ⟨by decide, ?_, by decide⟩
  intro a
  have h : (stateAfter (configOf [fileA]) schedSpin).trace =
      [.started (.request 0), .mainAdvanced, .started (.resolve 0), .mainAdvanced,
        .queueEmpty 0, .readDone 0 false, .queueEmpty 0, .readDone 0 false] := by decide
  rw [h]
  simp

/-! ## C4: completion ordering -/

/-- Replacing one element of a list changes a count by what the old and the new element
contribute. -/
theorem countP_set_eq {α : Type} (p : α → Bool) (l : List α) (i : Nat) (r x : α)
    (h : l[i]? = some r) :
    ((l.set i x).countP p : Int) =
      (l.countP p : Int) - (if p r then 1 else 0) + (if p x then 1 else 0) := by
  induction l generalizing i with
  | nil => simp at h
  | cons y l ih =>
    cases i with
    | zero =>
      simp only [List.getElem?_cons_zero, Option.some.injEq] at h
      subst h
      simp only [List.set_cons_zero, List.countP_cons]
      split <;> split <;> push_cast <;> omega
    | succ i =>
      simp only [List.getElem?_cons_succ] at h
      simp only [List.set_cons_succ, List.countP_cons]
      have := ih i h
      split <;> push_cast <;> omega

/-- Moving a producer to another program counter does not change which input file it
reads. -/
theorem map_inputFile_set (l : List Requester) (i : Nat) (r : Requester) (pc : ReqPc)
    (h : l[i]? = some r) :
    (l.set i { r with pc := pc }).map (fun r => r.inputFile) = l.map (fun r => r.inputFile) := by
  induction l generalizing i with
  | nil => simp
  | cons y l ih =>
    cases i with
    | zero =>
      simp only [List.getElem?_cons_zero, Option.some.injEq] at h
      subst h
      simp
    | succ i =>
      simp only [List.getElem?_cons_succ] at h
      simp [ih i h]

/-- When no producer is live, every producer has ended. -/
theorem all_terminated_of_count (l : List Requester)
    (h : ((l.countP Requester.live : Nat) : Int) = 0) : ∀ r ∈ l, r.pc = .terminated := by
  have h0 : l.countP Requester.live = 0 := by omega
  rw [List.countP_eq_zero] at h0
  intro r hr
  simpa [Requester.live] using h0 r hr

/-- The bookkeeping is kept by a step that moves a live producer `i` to `pc`, lowering
the wait-group counter by one exactly when `pc` is `terminated`. -/
theorem accounted_update {cfg : Config} {s s' : State} {i : Nat} {r : Requester} {pc : ReqPc}
    (hinv : ProducersAccounted cfg s) (hr : s.requesters[i]? = some r)
    (hlive : r.pc ≠ .terminated)
    (hreq : s'.requesters = s.requesters.set i { r with pc := pc })
    (hmain : s'.main = s.main) (hdone : s'.doneRequesting = s.doneRequesting)
    (hwg : s'.requestingGoroutineGroup =
      s.requestingGoroutineGroup - (if pc = .terminated then 1 else 0)) :
    ProducersAccounted cfg s' := by
  obtain ⟨hcount, hfiles, hpast, hflag⟩ := hinv
  refine ⟨?_, ?_, ?_, ?_⟩
  · rw [hwg, hreq, countP_set_eq _ _ _ _ _ hr, hcount]
    have h1 : Requester.live r = true := by simpa [Requester.live] using hlive
    rw [h1]
    by_cases hpc : pc = .terminated
    · have h2 : Requester.live { r with pc := pc } = false := by simp [Requester.live, hpc]
      rw [h2]
      simp [hpc]
    · have h2 : Requester.live { r with pc := pc } = true := by simp [Requester.live, hpc]
      rw [h2]
      simp [hpc]
  · rw [hreq, hmain, map_inputFile_set _ _ _ _ hr]
    exact hfiles
  · rw [hmain]
    intro hp
    exact absurd (hpast hp r (List.getElem?_mem hr)) hlive
  · rw [hmain, hdone]
    exact hflag

/-- The bookkeeping is kept by a step that touches neither `main`, nor the producers, nor
their wait group, nor `doneRequesting`. -/
theorem accounted_frame {cfg : Config} {s s' : State} (hinv : ProducersAccounted cfg s)
    (hreq : s'.requesters = s.requesters) (hmain : s'.main = s.main)
    (hdone : s'.doneRequesting = s.doneRequesting)
    (hwg : s'.requestingGoroutineGroup = s.requestingGoroutineGroup) :
    ProducersAccounted cfg s' := by
  unfold ProducersAccounted
  rw [hreq, hmain, hdone, hwg]
  exact hinv

/-- The bookkeeping of the producers' wait group holds in every reachable state. -/
theorem producers_accounted {cfg : Config} :
    ∀ s, Reachable cfg s → ProducersAccounted cfg s := by
  apply reachable_invariant
  · simp [ProducersAccounted, init, MainPc.unspawned, MainPc.pastWait, MainPc.pastSet]
  · intro s a s' hinv h
    unfold step at h
    cases a with
    | main =>
      obtain ⟨hcount, hfiles, hpast, hdone⟩ := hinv
      have hz := all_terminated_of_count s.requesters
      rw [← hcount] at hz
      simp only [stepMain] at h
      split at h <;> (try split at h) <;> simp at h <;> subst h <;>
        simp_all [ProducersAccounted, State.log, MainPc.unspawned, MainPc.pastWait,
          MainPc.pastSet, Requester.live]
    | request i =>
      simp only [stepRequest] at h
      split at h
      · simp at h
      · rename_i r hr
        split at h <;> (try split at h) <;>
          first
          | (simp at h; done)
          | (simp only [Option.some.injEq] at h
             subst h
             exact accounted_update hinv hr (by simp_all) rfl rfl rfl
               (by simp [State.log, State.setReq]))
    | resolve j =>
      simp only [stepResolve] at h
      split at h
      · simp at h
      · split at h <;> (try split at h) <;> (try split at h) <;>
          first
          | (simp at h; done)
          | (simp only [Option.some.injEq] at h
             subst h
             exact accounted_frame hinv rfl rfl rfl rfl)

/-- Once every producer has ended, no `request` goroutine can take a step. -/
theorem stepRequest_eq_none {cfg : Config} {s : State}
    (hall : ∀ r ∈ s.requesters, r.pc = .terminated) (i : Nat) : stepRequest cfg s i = none := by
  unfold stepRequest
  split
  · rfl
  · rename_i r hr
    simp [hall r (List.getElem?_mem hr)]

/-- A step taken when `doneRequesting` is true leaves the flag true, pushes nothing on the
queue and leaves the producers as they are. -/
theorem step_after_done {cfg : Config} {s s' : State} {a : Actor}
    (hinv : ProducersAccounted cfg s) (hd : s.doneRequesting = true)
    (h : step cfg s a = some s') :
    s'.doneRequesting = true ∧ enqueuedLog s'.trace = enqueuedLog s.trace := by
  obtain ⟨-, -, hpast, hflag⟩ := hinv
  have hset := hflag.1 hd
  have hall : ∀ r ∈ s.requesters, r.pc = .terminated := by
    apply hpast
    revert hset
    cases s.main <;> simp [MainPc.pastSet, MainPc.pastWait]
  unfold step at h
  cases a with
  | main =>
    simp only [stepMain] at h
    split at h <;> (try split at h) <;> simp at h <;> subst h <;>
      simp_all [State.log, enqueuedLog, MainPc.pastSet]
  | request i =>
    simp [stepRequest_eq_none hall] at h
  | resolve j =>
    simp only [stepResolve] at h
    split at h
    · simp at h
    · split at h <;> (try split at h) <;> (try split at h) <;> simp at h <;> subst h <;>
        simp_all [State.log, State.setRes, State.crashRes, enqueuedLog]

/-- C4 (completion ordering): in every reachable state in which `doneRequesting` is true,
a `request` goroutine has been started for every input file and each of them has ended
(the wait-group counter is zero); no `request` goroutine can take a step, and in every
continuation of the run the flag stays true and nothing more is pushed on the queue. -/
theorem completion_ordering (cfg : Config) (s : State) (hs : Reachable cfg s)
    (hd : s.doneRequesting = true) :
    s.requesters.map (fun r => r.inputFile) = cfg.inputFiles ∧
    (∀ r ∈ s.requesters, r.pc = .terminated) ∧
    s.requestingGoroutineGroup = 0 ∧
    (∀ i, step cfg s (.request i) = none) ∧
    ∀ sched s', run cfg sched s = some s' →
      s'.doneRequesting = true ∧ enqueuedLog s'.trace = enqueuedLog s.trace := by
  have hinv := producers_accounted s hs
  obtain ⟨hcount, hfiles, hpast, hflag⟩ := hinv
  have hset := hflag.1 hd
  have hmain : s.main.unspawned = [] ∧ s.main.pastWait = true := by
    revert hset
    cases s.main <;> simp [MainPc.pastSet, MainPc.pastWait, MainPc.unspawned]
  have hall := hpast hmain.2
  refine ⟨by simpa [hmain.1] using hfiles, hall, ?_, ?_, ?_⟩
  · rw [hcount]
    have h0 : s.requesters.countP Requester.live = 0 := by
      rw [List.countP_eq_zero]
      intro r hr
      simp [Requester.live, hall r hr]
    simp [h0]
  · intro i
    exact stepRequest_eq_none hall i
  · intro sched s' hrun
    have key := run_invariant
      (P := fun t => Reachable cfg t ∧ t.doneRequesting = true ∧
        enqueuedLog t.trace = enqueuedLog s.trace)
      (fun t a t' ht hstep =>
        have h2 := step_after_done (producers_accounted t ht.1) ht.2.1 hstep
        ⟨ht.1.run [a] (by simp [run, hstep]), h2.1, h2.2.trans ht.2.2⟩)
      sched s s' ⟨hs, hd, rfl⟩ hrun
    exact ⟨key.2.1, key.2.2⟩

/-- Completion ordering at the state in which `main` has just set the flag while the
worker is still between its emptiness test and its read of the flag. -/
theorem completion_ordering_witness :
    (stateAfter (configOf [fileA]) schedLateRead).doneRequesting = true ∧
    ((stateAfter (configOf [fileA]) schedLateRead).requesters.map (fun r => r.inputFile) =
        (configOf [fileA]).inputFiles ∧
      (∀ r ∈ (stateAfter (configOf [fileA]) schedLateRead).requesters, r.pc = .terminated) ∧
      (stateAfter (configOf [fileA]) schedLateRead).requestingGoroutineGroup = 0 ∧
      (∀ i, step (configOf [fileA]) (stateAfter (configOf [fileA]) schedLateRead)
        (.request i) = none) ∧
      ∀ sched s', run (configOf [fileA]) sched (stateAfter (configOf [fileA]) schedLateRead) =
          some s' →
        s'.doneRequesting = true ∧
        enqueuedLog s'.trace =
          enqueuedLog (stateAfter (configOf [fileA]) schedLateRead).trace) :=
  ⟨by decide, completion_ordering (configOf [fileA]) _ ⟨schedLateRead, by decide⟩ (by decide)⟩

/-! ## C8: a producer pushes the lines of its source, in order -/

/-- The pushes of producer `i` in a trace extended by one event. -/
theorem pushedBy_snoc (i : Nat) (tr : List Event) (e : Event) :
    pushedBy i (tr ++ [e]) = pushedBy i tr ++ pushedBy i [e] := by
  simp [pushedBy, List.filterMap_append]

/-- The order invariant is kept by a step that leaves the producers alone and records an
event that is not a push. -/
theorem inOrder_frame {s s' : State} {e : Event} (hinv : ProducersInOrder s)
    (hreq : s'.requesters = s.requesters) (htr : s'.trace = s.trace ++ [e])
    (he : ∀ k, pushedBy k [e] = []) : ProducersInOrder s' := by
  unfold ProducersInOrder
  simp only [hreq, htr, pushedBy_snoc, he, List.append_nil]
  exact hinv

/-- The order invariant is kept when `main` starts a producer. -/
theorem inOrder_spawn {s s' : State} {e : Event} {f : InputFile} (hinv : ProducersInOrder s)
    (hreq : s'.requesters = s.requesters ++ [{ inputFile := f, pc := .opening }])
    (htr : s'.trace = s.trace ++ [e]) (he : ∀ k, pushedBy k [e] = []) :
    ProducersInOrder s' := by
  obtain ⟨h1, h2⟩ := hinv
  unfold ProducersInOrder
  simp only [hreq, htr, pushedBy_snoc, he, List.append_nil]
  constructor
  · intro i r hr
    rcases Nat.lt_or_ge i s.requesters.length with hlt | hge
    · rw [List.getElem?_append_left hlt] at hr
      exact h1 i r hr
    · rw [List.getElem?_append_right hge] at hr
      have hi : i - s.requesters.length = 0 := by
        by_contra hne
        obtain ⟨k, hk⟩ := Nat.exists_eq_succ_of_ne_zero hne
        rw [hk] at hr
        simp at hr
      rw [hi] at hr
      simp only [List.getElem?_cons_zero, Option.some.injEq] at hr
      subst hr
      simp only [ProducerInOrder]
      exact h2 i hge
  · intro i hi
    simp only [List.length_append, List.length_singleton] at hi
    exact h2 i (by omega)

/-- The order invariant is kept when producer `i` moves to `pc` recording `e`, provided
`e` is not a push of another producer and producer `i` is in order afterwards. -/
theorem inOrder_update {s s' : State} {i : Nat} {r : Requester} {pc : ReqPc} {e : Event}
    (hinv : ProducersInOrder s) (hr : s.requesters[i]? = some r)
    (hreq : s'.requesters = s.requesters.set i { r with pc := pc })
    (htr : s'.trace = s.trace ++ [e]) (he : ∀ k, k ≠ i → pushedBy k [e] = [])
    (hnew : ProducerInOrder (pushedBy i s.trace ++ pushedBy i [e]) { r with pc := pc }) :
    ProducersInOrder s' := by
  obtain ⟨h1, h2⟩ := hinv
  have hlt : i < s.requesters.length := by
    rcases Nat.lt_or_ge i s.requesters.length with h | h
    · exact h
    · rw [List.getElem?_eq_none h] at hr; simp at hr
  unfold ProducersInOrder
  simp only [hreq, htr, pushedBy_snoc, List.length_set]
  constructor
  · intro k r' hr'
    by_cases hk : k = i
    · subst hk
      rw [List.getElem?_set_self hlt] at hr'
      simp only [Option.some.injEq] at hr'
      subst hr'
      exact hnew
    · rw [List.getElem?_set_ne (Ne.symm hk)] at hr'
      rw [he k hk, List.append_nil]
      exact h1 k r' hr'
  · intro k hk
    rw [he k (by omega), List.append_nil]
    exact h2 k hk

/-- Every producer is in order in every reachable state. -/
theorem producers_inOrder {cfg : Config} : ∀ s, Reachable cfg s → ProducersInOrder s := by
  apply reachable_invariant
  · simp [ProducersInOrder, init, pushedBy]
  · intro s a s' hinv h
    unfold step at h
    cases a with
    | main =>
      simp only [stepMain] at h
      split at h <;> (try split at h) <;>
        first
        | (simp at h; done)
        | (simp only [Option.some.injEq] at h
           subst h
           first
           | exact inOrder_frame hinv rfl rfl (by intro k; simp [pushedBy])
           | exact inOrder_spawn hinv rfl rfl (by intro k; simp [pushedBy]))
    | request i =>
      simp only [stepRequest] at h
      split at h
      · simp at h
      · rename_i r hr
        have hri := hinv.1 i r hr
        split at h <;> (try split at h) <;>
          first
          | (simp at h; done)
          | (simp only [Option.some.injEq] at h
             subst h
             exact inOrder_update hinv hr rfl rfl
               (by intro k hk; simp [pushedBy, Ne.symm hk])
               (by simp_all [ProducerInOrder, pushedBy]))
    | resolve j =>
      simp only [stepResolve] at h
      split at h
      · simp at h
      · split at h <;> (try split at h) <;> (try split at h) <;>
          first
          | (simp at h; done)
          | (simp only [Option.some.injEq] at h
             subst h
             exact inOrder_frame hinv rfl rfl (by intro k; simp [pushedBy]))

/-- An index at which a list has an element lies within the list. -/
theorem lt_length_of_getElem? {α : Type} {l : List α} {i : Nat} {x : α}
    (h : l[i]? = some x) : i < l.length := by
  rcases Nat.lt_or_ge i l.length with hlt | hge
  · exact hlt
  · rw [List.getElem?_eq_none hge] at h; simp at h

/-- C8 (enqueue never drops): in every reachable state, what producer `i` has pushed on
the queue is a prefix of the lines of its source, in source order, and it is the whole
list once the producer has ended after opening its source.  An attempt on a full queue
changes neither the queue nor what was pushed, and after the sleep the same hostname is
attempted again; an attempt on a queue that is not full appends exactly that hostname at
the tail. -/
theorem enqueue_never_drops (cfg : Config) (s : State) (hs : Reachable cfg s) (i : Nat)
    (r : Requester) (hr : s.requesters[i]? = some r) :
    pushedBy i s.trace <+: r.inputFile.lines ∧
    (r.pc = .terminated → r.inputFile.opens = true → pushedBy i s.trace = r.inputFile.lines) ∧
    (∀ h rest, s.panicked = false → r.pc = .enqueuing h rest →
      (isQueueFull cfg.QUEUE_BOUND s.myQ = true →
        ∃ s', step cfg s (.request i) = some s' ∧ s'.myQ = s.myQ ∧
          pushedBy i s'.trace = pushedBy i s.trace ∧
          s'.requesters[i]? = some { r with pc := .backoff h rest }) ∧
      (isQueueFull cfg.QUEUE_BOUND s.myQ = false →
        ∃ s', step cfg s (.request i) = some s' ∧ s'.myQ = s.myQ ++ [h] ∧
          pushedBy i s'.trace = pushedBy i s.trace ++ [h] ∧
          s'.requesters[i]? = some { r with pc := .scanning rest })) ∧
    (∀ h rest, s.panicked = false → r.pc = .backoff h rest →
      ∃ s', step cfg s (.request i) = some s' ∧ s'.myQ = s.myQ ∧
        pushedBy i s'.trace = pushedBy i s.trace ∧
        s'.requesters[i]? = some { r with pc := .enqueuing h rest }) := by
  have hord := (producers_inOrder s hs).1 i r hr
  have hlt := lt_length_of_getElem? hr
  refine ⟨?_, ?_, ?_, ?_⟩
  · unfold ProducerInOrder at hord
    split at hord
    · rw [hord]; exact List.nil_prefix
    · exact ⟨_, hord.2⟩
    · exact ⟨_, hord.2⟩
    · exact ⟨_, hord.2⟩
    · rw [hord]; split
      · exact List.prefix_refl _
      · exact List.nil_prefix
    · rw [hord]; split
      · exact List.prefix_refl _
      · exact List.nil_prefix
  · intro hpc ho
    simpa [ProducerInOrder, hpc, ho] using hord
  · intro h rest hp hpc
    constructor
    · intro hfull
      simp [step, stepRequest, hp, hr, hpc, hfull, State.log, State.setReq, pushedBy, hlt]
    · intro hfull
      simp [step, stepRequest, hp, hr, hpc, hfull, State.log, State.setReq, pushedBy, hlt,
        Deque.PushBack]
  · intro h rest hp hpc
    simp [step, stepRequest, hp, hr, hpc, State.log, State.setReq, pushedBy, hlt]

/-- Producer 1 reading `fileB` next to another producer: it has pushed `x.com`, a prefix
of its two lines. -/
theorem enqueue_never_drops_witness :
    (stateAfter (configOf [fileA, fileB]) schedTwoProducers).requesters[1]? =
      some { inputFile := fileB, pc := .scanning ["y.com"] } ∧
    pushedBy 1 (stateAfter (configOf [fileA, fileB]) schedTwoProducers).trace = ["x.com"] ∧
    pushedBy 1 (stateAfter (configOf [fileA, fileB]) schedTwoProducers).trace <+:
      fileB.lines :=
  ⟨by decide, by decide,
    (enqueue_never_drops (configOf [fileA, fileB])
      (stateAfter (configOf [fileA, fileB]) schedTwoProducers) ⟨schedTwoProducers, by decide⟩ 1
      { inputFile := fileB, pc := .scanning ["y.com"] } (by decide)).1⟩

/-! ## C9: a source that cannot be opened -/

/-- The workers' wait group is kept when worker `j`, not yet ended, moves to `pc'`,
lowering the counter by one exactly when `pc'` is `terminated`. -/
theorem resAccounted_update {s s' : State} {j : Nat} {pc pc' : ResPc}
    (hinv : ResolversAccounted s) (hj : s.resolvers[j]? = some pc) (hlive : pc ≠ .terminated)
    (hres : s'.resolvers = s.resolvers.set j pc') (hmain : s'.main = s.main)
    (hwg : s'.resolvingGoroutineGroup =
      s.resolvingGoroutineGroup - (if pc' = .terminated then 1 else 0)) :
    ResolversAccounted s' := by
  obtain ⟨hcount, hfin⟩ := hinv
  constructor
  · rw [hwg, hres, countP_set_eq _ _ _ _ _ hj, hcount]
    have h1 : ResPc.live pc = true := by simpa [ResPc.live] using hlive
    rw [h1]
    by_cases hpc : pc' = .terminated
    · have h2 : ResPc.live pc' = false := by simp [ResPc.live, hpc]
      rw [h2]
      simp [hpc]
    · have h2 : ResPc.live pc' = true := by simp [ResPc.live, hpc]
      rw [h2]
      simp [hpc]
  · rw [hmain]
    intro hm
    exact absurd (hfin hm pc (List.getElem?_mem hj)) hlive

/-- The workers' wait group is kept by a step that touches neither `main`, nor the
workers, nor the counter. -/
theorem resAccounted_frame {s s' : State} (hinv : ResolversAccounted s)
    (hres : s'.resolvers = s.resolvers) (hmain : s'.main = s.main)
    (hwg : s'.resolvingGoroutineGroup = s.resolvingGoroutineGroup) :
    ResolversAccounted s' := by
  unfold ResolversAccounted
  rw [hres, hmain, hwg]
  exact hinv

/-- When no worker is live, every worker has ended. -/
theorem all_workers_terminated_of_count (l : List ResPc)
    (h : ((l.countP ResPc.live : Nat) : Int) = 0) : ∀ pc ∈ l, pc = .terminated := by
  have h0 : l.countP ResPc.live = 0 := by omega
  rw [List.countP_eq_zero] at h0
  intro pc hpc
  simpa [ResPc.live] using h0 pc hpc

/-- The bookkeeping of the workers' wait group holds in every reachable state. -/
theorem resolvers_accounted {cfg : Config} : ∀ s, Reachable cfg s → ResolversAccounted s := by
  apply reachable_invariant
  · simp [ResolversAccounted, init]
  · intro s a s' hinv h
    unfold step at h
    cases a with
    | main =>
      obtain ⟨hcount, hfin⟩ := hinv
      have hz := all_workers_terminated_of_count s.resolvers
      rw [← hcount] at hz
      simp only [stepMain] at h
      split at h <;> (try split at h) <;> simp at h <;> subst h <;>
        first
        | (simp_all [ResolversAccounted, State.log, ResPc.live]; done)
        | (simp_all [ResolversAccounted, State.log, ResPc.live]
           exact hz)
    | request i =>
      simp only [stepRequest] at h
      split at h
      · simp at h
      · split at h <;> (try split at h) <;>
          first
          | (simp at h; done)
          | (simp only [Option.some.injEq] at h
             subst h
             exact resAccounted_frame hinv rfl rfl rfl)
    | resolve j =>
      simp only [stepResolve] at h
      split at h
      · simp at h
      · rename_i pc hj
        split at h <;> (try split at h) <;> (try split at h) <;>
          first
          | (simp at h; done)
          | (simp only [Option.some.injEq] at h
             subst h
             first
             | exact resAccounted_frame hinv rfl rfl rfl
             | exact resAccounted_update hinv hj (by simp) rfl rfl
                 (by simp [State.log, State.setRes, State.crashRes]))

/-- Every started producer reads one of the input files of the command line. -/
theorem inputFile_mem {cfg : Config} {s : State} (hinv : ProducersAccounted cfg s)
    {r : Requester} (hr : r ∈ s.requesters) : r.inputFile ∈ cfg.inputFiles := by
  rw [← hinv.2.1]
  exact List.mem_append_left _ (List.mem_map_of_mem _ hr)

/-- A live producer is counted in the producers' wait group. -/
theorem one_le_of_live {cfg : Config} {s : State} (hinv : ProducersAccounted cfg s)
    {r : Requester} (hr : r ∈ s.requesters) (hlive : r.pc ≠ .terminated) :
    1 ≤ s.requestingGoroutineGroup := by
  rw [hinv.1]
  have h : 0 < s.requesters.countP Requester.live :=
    List.countP_pos_iff.2 ⟨r, hr, by simpa [Requester.live] using hlive⟩
  omega

/-- A live worker is counted in the workers' wait group. -/
theorem one_le_of_live_worker {s : State} (hinv : ResolversAccounted s)
    {pc : ResPc} (hpc : pc ∈ s.resolvers) (hlive : pc ≠ .terminated) :
    1 ≤ s.resolvingGoroutineGroup := by
  rw [hinv.1]
  have h : 0 < s.resolvers.countP ResPc.live :=
    List.countP_pos_iff.2 ⟨pc, hpc, by simpa [ResPc.live] using hlive⟩
  omega

/-- A producer whose file does not open is about to open it, about to return, or has
ended; and it has pushed nothing. -/
theorem pc_of_unopened {pushed : List String} {r : Requester} (hord : ProducerInOrder pushed r)
    (hf : r.inputFile.opens = false) :
    (r.pc = .opening ∨ r.pc = .returning ∨ r.pc = .terminated) ∧ pushed = [] := by
  unfold ProducerInOrder at hord
  split at hord <;> simp_all

/-- Workers stay idle when one of them moves to an idle program counter. -/
theorem idle_set {l : List ResPc} (h : ∀ pc ∈ l, pc.idle = true) (j : Nat) (x : ResPc)
    (hx : x.idle = true) : ∀ pc ∈ l.set j x, pc.idle = true := by
  intro pc hpc
  rcases List.mem_or_eq_of_mem_set hpc with hmem | heq
  · exact h pc hmem
  · rw [heq]; exact hx

/-- Workers stay idle when `main` starts one more. -/
theorem idle_append {l : List ResPc} (h : ∀ pc ∈ l, pc.idle = true) (x : ResPc)
    (hx : x.idle = true) : ∀ pc ∈ l ++ [x], pc.idle = true := by
  intro pc hpc
  rcases List.mem_append.1 hpc with hmem | heq
  · exact h pc hmem
  · rw [List.mem_singleton.1 heq]; exact hx

/-- Quietness is kept by a step that changes neither queue nor output, does not panic,
records an event that is not a write, and leaves every worker idle. -/
theorem quiet_step {t t' : State} {e : Event} (hq : Quiet t) (hmy : t'.myQ = t.myQ)
    (hout : t'.output = t.output) (hp : t'.panicked = t.panicked)
    (htr : t'.trace = t.trace ++ [e]) (he : emittedLog [e] = [])
    (hres : ∀ pc ∈ t'.resolvers, pc.idle = true) : Quiet t' := by
  obtain ⟨h1, h2, h3, h4, -⟩ := hq
  refine ⟨hmy.trans h1, hout.trans h2, ?_, hp.trans h4, hres⟩
  rw [htr]
  simp only [emittedLog, List.filterMap_append] at h3 he ⊢
  rw [h3, he]
  rfl

/-- When no input file can be opened, every reachable state is quiet: the queue and the
output stay empty and no goroutine panics. -/
theorem quiet_of_all_fail {cfg : Config} (hall : ∀ f ∈ cfg.inputFiles, f.opens = false) :
    ∀ s, Reachable cfg s → Quiet s := by
  intro s hs
  refine (reachable_invariant (P := fun t => Reachable cfg t ∧ Quiet t)
    ⟨⟨[], rfl⟩, by simp [Quiet, init, emittedLog]⟩ ?_ s hs).2
  intro t a t' ht h
  obtain ⟨hreach, hq⟩ := ht
  refine ⟨hreach.run [a] (by simp [run, h]), ?_⟩
  have hacc := producers_accounted t hreach
  have hord := producers_inOrder t hreach
  have hwork := resolvers_accounted t hreach
  have hidle := hq.2.2.2.2
  have hempty : isQueueEmpty t.myQ = true := by rw [hq.1]; exact isQueueEmpty_nil
  unfold step at h
  cases a with
  | main =>
    simp only [stepMain] at h
    split at h <;> (try split at h) <;>
      first
      | (simp at h; done)
      | (simp only [Option.some.injEq] at h
         subst h
         first
         | exact quiet_step hq rfl rfl rfl rfl (by simp [emittedLog]) hidle
         | exact quiet_step hq rfl rfl rfl rfl (by simp [emittedLog])
             (idle_append hidle _ rfl))
  | request i =>
    simp only [stepRequest] at h
    split at h
    · simp at h
    · rename_i r hr
      have hmem : r ∈ t.requesters := List.getElem?_mem hr
      have hf : r.inputFile.opens = false := hall _ (inputFile_mem hacc hmem)
      have hpc := (pc_of_unopened (hord.1 i r hr) hf).1
      have hge := one_le_of_live hacc hmem
      split at h <;> (try split at h) <;>
        first
        | (simp at h; done)
        | (simp only [Option.some.injEq] at h
           subst h
           first
           | exact quiet_step hq rfl rfl rfl rfl (by simp [emittedLog]) hidle
           | (exfalso; simp_all; done)
           | (exfalso
              have := hge (by simp_all)
              omega))
  | resolve j =>
    simp only [stepResolve] at h
    split at h
    · simp at h
    · rename_i pc hj
      have hmem : pc ∈ t.resolvers := List.getElem?_mem hj
      have hi := hidle pc hmem
      have hge := one_le_of_live_worker hwork hmem
      split at h <;> (try split at h) <;>
        first
        | (simp at h; done)
        | (simp only [Option.some.injEq] at h
           subst h
           first
           | exact quiet_step hq rfl rfl rfl rfl (by simp [emittedLog])
               (idle_set hidle j _ rfl)
           | (exfalso; simp_all [ResPc.idle]; done)
           | (exfalso
              have := hge (by simp)
              omega))

/-- Replacing one element of a list changes a sum by what the old and the new element
contribute. -/
theorem sum_map_set {α : Type} (f : α → Nat) (l : List α) (i : Nat) (r x : α)
    (h : l[i]? = some r) : ((l.set i x).map f).sum + f r = (l.map f).sum + f x := by
  induction l generalizing i with
  | nil => simp at h
  | cons y l ih =>
    cases i with
    | zero =>
      simp only [List.getElem?_cons_zero, Option.some.injEq] at h
      subst h
      simp only [List.set_cons_zero, List.map_cons, List.sum_cons]
      omega
    | succ i =>
      simp only [List.getElem?_cons_succ] at h
      simp only [List.set_cons_succ, List.map_cons, List.sum_cons]
      have := ih i h
      omega

/-- The step of a producer whose `os.Open` fails: it goes to the end of `request`. -/
theorem step_open_failed {cfg : Config} {s : State} {i : Nat} {r : Requester}
    (hr : s.requesters[i]? = some r) (hpc : r.pc = .opening)
    (hf : r.inputFile.opens = false) :
    step cfg s (.request i) = some ((s.setReq i r .returning).log (.openFailed i)) := by
  simp [step, stepRequest, hr, hpc, hf]

/-- The deferred `Done()` of a producer while the counter is positive: the counter drops
by one and the producer has ended. -/
theorem step_request_done {cfg : Config} {s : State} {i : Nat} {r : Requester}
    (hr : s.requesters[i]? = some r) (hpc : r.pc = .returning)
    (hge : 1 ≤ s.requestingGoroutineGroup) :
    step cfg s (.request i) =
      some ((({ s with requestingGoroutineGroup := s.requestingGoroutineGroup - 1 } :
        State).setReq i r .terminated).log (.returned (.request i))) := by
  have hlt : ¬ s.requestingGoroutineGroup - 1 < 0 := by omega
  simp [step, stepRequest, hr, hpc, hlt]

/-- When no input file can be opened and `doneRequesting` is not yet set, `main` or some
producer can take a step, and that step brings the setting of the flag nearer. -/
theorem progress_to_flag {cfg : Config} (hall : ∀ f ∈ cfg.inputFiles, f.opens = false)
    {s : State} (hs : Reachable cfg s) (hd : s.doneRequesting = false) :
    ∃ a s', step cfg s a = some s' ∧ stepsToFlag cfg s' < stepsToFlag cfg s := by
  have hq := quiet_of_all_fail hall s hs
  have hacc := producers_accounted s hs
  have hord := producers_inOrder s hs
  have hp := hq.2.2.2.1
  cases hm : s.main with
  | spawnRequest rest =>
    refine ⟨.main, ?_⟩
    cases rest with
    | nil =>
      simp [step, stepMain, hm, stepsToFlag, MainPc.stepsToFlag, State.log]
    | cons f rest =>
      simp [step, stepMain, hm, stepsToFlag, MainPc.stepsToFlag, State.log,
        ReqPc.stepsLeft]
      omega
  | spawnResolve i =>
    refine ⟨.main, ?_⟩
    by_cases hi : i < cfg.MAX_RESOLVING_GOROUTINES
    · simp [step, stepMain, hm, stepsToFlag, MainPc.stepsToFlag, State.log, hi]
    · simp [step, stepMain, hm, stepsToFlag, MainPc.stepsToFlag, State.log, hi]
  | waitRequest =>
    by_cases hz : s.requestingGoroutineGroup = 0
    · refine ⟨.main, ?_⟩
      simp [step, stepMain, hm, stepsToFlag, MainPc.stepsToFlag, State.log, hz]
    · have hpos : 0 < s.requesters.countP Requester.live := by
        have := hacc.1
        omega
      obtain ⟨r, hmem, hlive⟩ := List.countP_pos_iff.1 hpos
      obtain ⟨i, hr⟩ := List.mem_iff_getElem?.1 hmem
      have hf : r.inputFile.opens = false := hall _ (inputFile_mem hacc hmem)
      have hpc := (pc_of_unopened (hord.1 i r hr) hf).1
      have hlive' : r.pc ≠ .terminated := by simpa [Requester.live] using hlive
      rcases hpc with hpc | hpc | hpc
      · refine ⟨.request i, _, step_open_failed hr hpc hf, ?_⟩
        have hsum : ((s.requesters.set i { r with pc := .returning }).map
            (fun r => r.pc.stepsLeft)).sum + r.pc.stepsLeft =
            (s.requesters.map (fun r => r.pc.stepsLeft)).sum + ReqPc.stepsLeft .returning :=
          sum_map_set (fun r => r.pc.stepsLeft) s.requesters i r _ hr
        have h2 : ReqPc.stepsLeft .opening = 2 := rfl
        have h1 : ReqPc.stepsLeft .returning = 1 := rfl
        rw [hpc, h2, h1] at hsum
        simp only [stepsToFlag, State.log, State.setReq]
        omega
      · refine ⟨.request i, _,
          step_request_done hr hpc (one_le_of_live hacc hmem hlive'), ?_⟩
        have hsum : ((s.requesters.set i { r with pc := .terminated }).map
            (fun r => r.pc.stepsLeft)).sum + r.pc.stepsLeft =
            (s.requesters.map (fun r => r.pc.stepsLeft)).sum + ReqPc.stepsLeft .terminated :=
          sum_map_set (fun r => r.pc.stepsLeft) s.requesters i r _ hr
        have h1 : ReqPc.stepsLeft .returning = 1 := rfl
        have h0 : ReqPc.stepsLeft .terminated = 0 := rfl
        rw [hpc, h1, h0] at hsum
        simp only [stepsToFlag, State.log, State.setReq]
        omega
      · exact absurd hpc hlive'
  | setDone =>
    refine ⟨.main, ?_⟩
    simp [step, stepMain, hm, stepsToFlag, MainPc.stepsToFlag, State.log]
  | waitResolve =>
    have := hacc.2.2.2.2 (by simp [hm, MainPc.pastSet])
    simp [hd] at this
  | finished =>
    have := hacc.2.2.2.2 (by simp [hm, MainPc.pastSet])
    simp [hd] at this

/-- When no input file can be opened, every reachable state has a continuation in which
`main` sets `doneRequesting`. -/
theorem exists_run_to_flag {cfg : Config} (hall : ∀ f ∈ cfg.inputFiles, f.opens = false) :
    ∀ (n : Nat) (s : State), Reachable cfg s → stepsToFlag cfg s ≤ n →
      ∃ sched s', run cfg sched s = some s' ∧ s'.doneRequesting = true := by
  intro n
  induction n with
  | zero =>
    intro s hs hn
    cases hd : s.doneRequesting with
    | true => exact ⟨[], s, rfl, hd⟩
    | false =>
      obtain ⟨a, s1, -, hlt⟩ := progress_to_flag hall hs hd
      omega
  | succ n ih =>
    intro s hs hn
    cases hd : s.doneRequesting with
    | true => exact ⟨[], s, rfl, hd⟩
    | false =>
      obtain ⟨a, s1, hstep, hlt⟩ := progress_to_flag hall hs hd
      have hs1 : Reachable cfg s1 := hs.run [a] (by simp [run, hstep])
      obtain ⟨sched, s', hrun, hdone⟩ := ih s1 hs1 (by omega)
      exact ⟨a :: sched, s', by simp [run, hstep, hrun], hdone⟩

/-- The dequeue attempt of a worker on the empty queue. -/
theorem step_poll_empty {cfg : Config} {s : State} {j : Nat}
    (hj : s.resolvers[j]? = some .polling) (hq : s.myQ = []) :
    step cfg s (.resolve j) = some ((s.setRes j .checkDone).log (.queueEmpty j)) := by
  simp [step, stepResolve, hj, hq, isQueueEmpty_nil]

/-- The read of `doneRequesting` by a worker once the flag is set: it leaves the loop. -/
theorem step_read_done {cfg : Config} {s : State} {j : Nat}
    (hj : s.resolvers[j]? = some .checkDone) (hd : s.doneRequesting = true) :
    step cfg s (.resolve j) = some ((s.setRes j .returning).log (.readDone j true)) := by
  simp [step, stepResolve, hj, hd]

/-- The deferred `Done()` of a worker while the counter is positive. -/
theorem step_resolve_done {cfg : Config} {s : State} {j : Nat}
    (hj : s.resolvers[j]? = some .returning) (hge : 1 ≤ s.resolvingGoroutineGroup) :
    step cfg s (.resolve j) =
      some ((({ s with resolvingGoroutineGroup := s.resolvingGoroutineGroup - 1 } :
        State).setRes j .terminated).log (.returned (.resolve j))) := by
  have hlt : ¬ s.resolvingGoroutineGroup - 1 < 0 := by omega
  simp [step, stepResolve, hj, hlt]

/-- When no input file can be opened and `doneRequesting` is set, `main` or some worker
can take a step as long as `main` has not returned, and that step brings the end of the
run nearer. -/
theorem progress_to_end {cfg : Config} (hall : ∀ f ∈ cfg.inputFiles, f.opens = false)
    {s : State} (hs : Reachable cfg s) (hd : s.doneRequesting = true)
    (hm : s.main ≠ .finished) :
    ∃ a s', step cfg s a = some s' ∧ stepsToEnd s' < stepsToEnd s := by
  have hq := quiet_of_all_fail hall s hs
  have hacc := producers_accounted s hs
  have hwork := resolvers_accounted s hs
  have hp := hq.2.2.2.1
  have hwait : s.main = .waitResolve := by
    have h := hacc.2.2.2.1 hd
    revert h hm
    cases s.main <;> simp [MainPc.pastSet]
  by_cases hz : s.resolvingGoroutineGroup = 0
  · refine ⟨.main, ?_⟩
    simp [step, stepMain, hwait, stepsToEnd, State.log, hz]
  · have hpos : 0 < s.resolvers.countP ResPc.live := by
      have := hwork.1
      omega
    obtain ⟨pc, hmem, hlive⟩ := List.countP_pos_iff.1 hpos
    obtain ⟨j, hj⟩ := List.mem_iff_getElem?.1 hmem
    have hlive' : pc ≠ .terminated := by simpa [ResPc.live] using hlive
    have hidle := hq.2.2.2.2 pc hmem
    have h3 : ResPc.stepsLeft .polling = 3 := rfl
    have h2 : ResPc.stepsLeft .checkDone = 2 := rfl
    have h1 : ResPc.stepsLeft .returning = 1 := rfl
    have h0 : ResPc.stepsLeft .terminated = 0 := rfl
    cases pc with
    | polling =>
      refine ⟨.resolve j, _, step_poll_empty hj hq.1, ?_⟩
      have hsum := sum_map_set ResPc.stepsLeft s.resolvers j _ .checkDone hj
      rw [h3, h2] at hsum
      simp only [stepsToEnd, State.log, State.setRes]
      omega
    | checkDone =>
      refine ⟨.resolve j, _, step_read_done hj hd, ?_⟩
      have hsum := sum_map_set ResPc.stepsLeft s.resolvers j _ .returning hj
      rw [h2, h1] at hsum
      simp only [stepsToEnd, State.log, State.setRes]
      omega
    | returning =>
      refine ⟨.resolve j, _,
        step_resolve_done hj (one_le_of_live_worker hwork hmem hlive'), ?_⟩
      have hsum := sum_map_set ResPc.stepsLeft s.resolvers j _ .terminated hj
      rw [h1, h0] at hsum
      simp only [stepsToEnd, State.log, State.setRes]
      omega
    | lookingUp h => simp [ResPc.idle] at hidle
    | writing h ip => simp [ResPc.idle] at hidle
    | terminated => exact absurd rfl hlive'

/-- When no input file can be opened, every reachable state in which `doneRequesting` is
set has a continuation in which `main` returns. -/
theorem exists_run_to_end {cfg : Config} (hall : ∀ f ∈ cfg.inputFiles, f.opens = false) :
    ∀ (n : Nat) (s : State), Reachable cfg s → s.doneRequesting = true → stepsToEnd s ≤ n →
      ∃ sched s', run cfg sched s = some s' ∧ s'.main = .finished := by
  intro n
  induction n with
  | zero =>
    intro s hs hd hn
    by_cases hm : s.main = .finished
    · exact ⟨[], s, rfl, hm⟩
    · obtain ⟨a, s1, -, hlt⟩ := progress_to_end hall hs hd hm
      omega
  | succ n ih =>
    intro s hs hd hn
    by_cases hm : s.main = .finished
    · exact ⟨[], s, rfl, hm⟩
    · obtain ⟨a, s1, hstep, hlt⟩ := progress_to_end hall hs hd hm
      have hs1 : Reachable cfg s1 := hs.run [a] (by simp [run, hstep])
      have hd1 := (step_after_done (producers_accounted s hs) hd hstep).1
      obtain ⟨sched, s', hrun, hfin⟩ := ih s1 hs1 hd1 (by omega)
      exact ⟨a :: sched, s', by simp [run, hstep, hrun], hfin⟩

/-- When no input file can be opened, every reachable state has a continuation to a
complete run in which `doneRequesting` is set. -/
theorem exists_complete_run {cfg : Config} (hall : ∀ f ∈ cfg.inputFiles, f.opens = false)
    {s : State} (hs : Reachable cfg s) :
    ∃ sched s', run cfg sched s = some s' ∧ s'.doneRequesting = true ∧ s'.complete ∧
      Quiet s' := by
  obtain ⟨p, s1, hrun1, hd1⟩ := exists_run_to_flag hall _ s hs (Nat.le_refl _)
  have hs1 := hs.run p hrun1
  obtain ⟨q, s2, hrun2, hfin⟩ := exists_run_to_end hall _ s1 hs1 hd1 (Nat.le_refl _)
  have hs2 := hs1.run q hrun2
  have hacc := producers_accounted s2 hs2
  refine ⟨p ++ q, s2, by rw [run_append, hrun1]; simpa using hrun2, ?_, ?_,
    quiet_of_all_fail hall s2 hs2⟩
  · exact hacc.2.2.2.2 (by simp [hfin, MainPc.pastSet])
  · exact ⟨hfin, hacc.2.2.1 (by simp [hfin, MainPc.pastWait]),
      (resolvers_accounted s2 hs2).2 hfin⟩

/-- C9 (source open failure is local): in every reachable state, a producer whose input
file cannot be opened has pushed nothing, no step of it changes the queue or panics, it
stands at `os.Open`, at its deferred `Done()` or has ended, and its steps are never
blocked: from
`os.Open` it goes to the `Done()`, and the `Done()` lowers the producers' wait-group
counter by one and ends it.  When the only input file cannot be opened, no record is ever
written and no goroutine panics, and every reachable state has a continuation to a
complete run in which `doneRequesting` is set and the output is empty. -/
theorem open_failure_is_local (cfg : Config) (s : State) (hs : Reachable cfg s) :
    (∀ i r, s.requesters[i]? = some r → r.inputFile.opens = false →
      pushedBy i s.trace = [] ∧
      (r.pc = .opening ∨ r.pc = .returning ∨ r.pc = .terminated) ∧
      (∀ s', step cfg s (.request i) = some s' →
        s'.myQ = s.myQ ∧ pushedBy i s'.trace = [] ∧ s'.panicked = s.panicked) ∧
      (s.panicked = false → r.pc = .opening →
        ∃ s', step cfg s (.request i) = some s' ∧
          s'.requesters[i]? = some { r with pc := .returning } ∧
          s'.requestingGoroutineGroup = s.requestingGoroutineGroup) ∧
      (s.panicked = false → r.pc = .returning →
        ∃ s', step cfg s (.request i) = some s' ∧
          s'.requesters[i]? = some { r with pc := .terminated } ∧
          s'.requestingGoroutineGroup = s.requestingGoroutineGroup - 1)) ∧
    (∀ f, cfg.inputFiles = [f] → f.opens = false →
      s.myQ = [] ∧ s.output = [] ∧ emittedLog s.trace = [] ∧ s.panicked = false ∧
      ∃ sched s', run cfg sched s = some s' ∧ s'.doneRequesting = true ∧ s'.complete ∧
        s'.output = [] ∧ emittedLog s'.trace = [] ∧ s'.panicked = false) := by
  constructor
  · intro i r hr hf
    have hacc := producers_accounted s hs
    have hord := (producers_inOrder s hs).1 i r hr
    have hmem : r ∈ s.requesters := List.getElem?_mem hr
    have hlt := lt_length_of_getElem? hr
    obtain ⟨hpc, hpush⟩ := pc_of_unopened hord hf
    have hopen : r.pc = .opening →
        step cfg s (.request i) = some ((s.setReq i r .returning).log (.openFailed i)) :=
      fun h => step_open_failed hr h hf
    have hdone : r.pc = .returning →
        step cfg s (.request i) =
          some ((({ s with requestingGoroutineGroup := s.requestingGoroutineGroup - 1 } :
            State).setReq i r .terminated).log (.returned (.request i))) :=
      fun h => step_request_done hr h (one_le_of_live hacc hmem (by simp [h]))
    refine ⟨hpush, hpc, ?_, ?_, ?_⟩
    · intro s' hstep
      rcases hpc with h | h | h
      · rw [hopen h] at hstep
        simp only [Option.some.injEq] at hstep
        subst hstep
        refine ⟨rfl, ?_, rfl⟩
        show pushedBy i (s.trace ++ [_]) = []
        rw [pushedBy_snoc, hpush]
        simp [pushedBy]
      · rw [hdone h] at hstep
        simp only [Option.some.injEq] at hstep
        subst hstep
        refine ⟨rfl, ?_, rfl⟩
        show pushedBy i (s.trace ++ [_]) = []
        rw [pushedBy_snoc, hpush]
        simp [pushedBy]
      · simp [step, stepRequest, hr, h] at hstep
    · intro _ h
      exact ⟨_, hopen h, by simp [State.log, State.setReq, hlt], rfl⟩
    · intro _ h
      exact ⟨_, hdone h, by simp [State.log, State.setReq, hlt], rfl⟩
  · intro f hfiles hf
    have hall : ∀ g ∈ cfg.inputFiles, g.opens = false := by
      intro g hg
      rw [hfiles, List.mem_singleton] at hg
      rw [hg]
      exact hf
    have hq := quiet_of_all_fail hall s hs
    obtain ⟨sched, s', hrun, hd, hc, hq'⟩ := exists_complete_run hall hs
    exact ⟨hq.1, hq.2.1, hq.2.2.1, hq.2.2.2.1, sched, s', hrun, hd, hc, hq'.2.1, hq'.2.2.1,
      hq'.2.2.2.1⟩

/-- A run whose only input file cannot be opened, at the state in which the producer has
just failed to open it: nothing is queued or written, and the run can be completed with
`doneRequesting` set and an empty output. -/
theorem open_failure_is_local_witness :
    (stateAfter (configOf [fileMissing]) [.main, .request 0]).requesters =
      [{ inputFile := fileMissing, pc := .returning }] ∧
    (stateAfter (configOf [fileMissing]) [.main, .request 0]).myQ = [] ∧
    (stateAfter (configOf [fileMissing]) [.main, .request 0]).output = [] ∧
    emittedLog (stateAfter (configOf [fileMissing]) [.main, .request 0]).trace = [] ∧
    (stateAfter (configOf [fileMissing]) [.main, .request 0]).panicked = false ∧
    ∃ sched s', run (configOf [fileMissing]) sched
        (stateAfter (configOf [fileMissing]) [.main, .request 0]) = some s' ∧
      s'.doneRequesting = true ∧ s'.complete ∧ s'.output = [] ∧ emittedLog s'.trace = [] ∧
      s'.panicked = false :=
  ⟨by decide, (open_failure_is_local (configOf [fileMissing])
    (stateAfter (configOf [fileMissing]) [.main, .request 0])
    ⟨[.main, .request 0], by decide⟩).2 fileMissing rfl rfl⟩

/-! ## C5: record format -/

/-- Silence is kept by a step that changes neither output nor workers, records an event
that is not a write, and leaves `main` out of its loops. -/
theorem silenced_frame {s s' : State} {e : Event} (hinv : Silenced s)
    (hout : s'.output = s.output) (hres : s'.resolvers = s.resolvers)
    (hp : s'.panicked = true) (htr : s'.trace = s.trace ++ [e]) (he : emittedLog [e] = [])
    (hmain : s'.main.spawning = false) : Silenced s' := by
  obtain ⟨h1, h2, -, h4, -⟩ := hinv
  refine ⟨hout.trans h1, ?_, hp, by rw [hres]; exact h4, hmain⟩
  rw [htr]
  simp only [emittedLog, List.filterMap_append] at h2 he ⊢
  rw [h2, he]
  rfl

/-- Once a goroutine has panicked, every worker has ended and `main` starts no more,
nothing is written in any further step. -/
theorem silenced_step {cfg : Config} {s s' : State} {a : Actor} (hinv : Silenced s)
    (h : step cfg s a = some s') : Silenced s' := by
  have hp := hinv.2.2.1
  have hall := hinv.2.2.2.1
  have hmain := hinv.2.2.2.2
  unfold step at h
  cases a with
  | main =>
    simp only [stepMain] at h
    split at h <;> (try split at h) <;>
      first
      | (simp at h; done)
      | (exfalso; simp_all [MainPc.spawning]; done)
      | (simp only [Option.some.injEq] at h
         subst h
         exact silenced_frame hinv rfl rfl hp rfl (by simp [emittedLog]) rfl)
  | request i =>
    simp only [stepRequest] at h
    split at h
    · simp at h
    · split at h <;> (try split at h) <;>
        first
        | (simp at h; done)
        | (simp only [Option.some.injEq] at h
           subst h
           exact silenced_frame hinv rfl rfl (by simp [State.log, State.setReq, hp]) rfl
             (by simp [emittedLog]) hmain)
  | resolve j =>
    simp only [stepResolve] at h
    split at h
    · simp at h
    · rename_i pc hj
      have hpc := hall pc (List.getElem?_mem hj)
      subst hpc
      simp at h

/-- C6 at the failing input: when `net.LookupHost` returns no error and an empty list for
`a.com`, the worker's lookup step panics at `ip[0]`: the deferred `Done()` runs, the
worker has ended and can take no further step, no record has been written, and none is
written in any continuation of the run. -/
theorem empty_answer_panics :
    (stateAfter (configNoAddress [fileA]) (schedFirstPush ++ [.resolve 0])).resolvers =
      [.lookingUp "a.com"] ∧
    (configNoAddress [fileA]).LookupHost "a.com" = { ip := [], err := false } ∧
    (stateAfter (configNoAddress [fileA])
      (schedFirstPush ++ [.resolve 0, .resolve 0])).panicked = true ∧
    (stateAfter (configNoAddress [fileA])
      (schedFirstPush ++ [.resolve 0, .resolve 0])).resolvers = [.terminated] ∧
    (stateAfter (configNoAddress [fileA])
      (schedFirstPush ++ [.resolve 0, .resolve 0])).resolvingGoroutineGroup = 0 ∧
    (stateAfter (configNoAddress [fileA])
      (schedFirstPush ++ [.resolve 0, .resolve 0])).output = [] ∧
    (stateAfter (configNoAddress [fileA]) (schedFirstPush ++ [.resolve 0, .resolve 0])).trace =
      (stateAfter (configNoAddress [fileA]) (schedFirstPush ++ [.resolve 0])).trace ++
        [.crashed (.resolve 0)] ∧
    step (configNoAddress [fileA])
      (stateAfter (configNoAddress [fileA]) (schedFirstPush ++ [.resolve 0, .resolve 0]))
      (.resolve 0) = none ∧
    ∀ sched s', run (configNoAddress [fileA]) sched
        (stateAfter (configNoAddress [fileA]) (schedFirstPush ++ [.resolve 0, .resolve 0])) =
          some s' →
      s'.output = [] ∧ emittedLog s'.trace = [] := by
  refine ⟨by decide, by decide, by decide, by decide, by decide, by decide, by decide,
    by decide, ?_⟩
  intro sched s' hrun
  have h0 : Silenced (stateAfter (configNoAddress [fileA])
      (schedFirstPush ++ [.resolve 0, .resolve 0])) := by
    unfold Silenced
    decide
  have h1 := run_invariant (P := Silenced) (fun _ _ _ hP hstep => silenced_step hP hstep)
    sched _ s' h0 hrun
  exact ⟨h1.1, h1.2.1⟩

end Lookup
